import Mathlib

/-!
Shallow embedding of MTELib (src/mtelib.h), a wrapper around the AArch64 MTE
(Memory Tagging Extension) primitives, together with proofs about the
library's documented contract.

Machine integers are modelled as `Nat` with explicit truncation where the C
code can wrap; pointers are 64-bit values whose bits [59:56] hold the MTE
allocation tag and whose low 56 bits are the address proper (the top byte is
ignored for translation, as on AArch64 with top-byte-ignore).  The out-of-band
tag storage and the data bytes of memory are modelled by the state `MTEMem`.
Functions guarded by an `MTE_ASSERT` (a fatal assertion) return `Option`:
`none` means the assertion fired and the process aborted.
-/

namespace MTELib

/-! Constants from mtelib.h. -/

def MAX_TAG : Nat := 0xF

def TAG_SHIFT : Nat := 56

def LOG2_TAG_GRANULE_SIZE : Nat := 4

def GRANULE_SIZE : Nat := 1 <<< LOG2_TAG_GRANULE_SIZE

def GRANULE_ALIGNMENT_MASK : Nat := GRANULE_SIZE - 1

def LOG2_DGRANULE_SIZE : Nat := 5

def DGRANULE_SIZE : Nat := 1 <<< LOG2_DGRANULE_SIZE

def DGRANULE_ALIGNMENT_MASK : Nat := DGRANULE_SIZE - 1

/-- Number of values of a C uint64_t / uintptr_t. -/
def UINT64_CARD : Nat := 2 ^ 64

/-- Number of distinct translated addresses: AArch64 ignores the top byte of a
pointer for translation (TBI), so bits [63:56] -- including the tag field --
do not take part in addressing. -/
def ADDR_CARD : Nat := 2 ^ 56

/-- Build-time configuration surface of mtelib.h relevant to the memory
operations (MTELIB_NO_ALIGNMENT_CHECKS, MTELIB_RELAXED_ALIGNMENT_CHECKS,
MTELIB_NO_INLINE_ASSEMBLY, MTELIB_DISABLE_DGRANULE_OPERATIONS).  The
MTELIB_NO_TAG_CHECKS switch only affects the tag-value assertions of the
pure pointer/mask helpers and is modelled as being off (the default). -/
structure MTEConfig where
  noAlignmentChecks : Bool
  relaxedAlignmentChecks : Bool
  noInlineAssembly : Bool
  disableDGranuleOperations : Bool

/-- Default build configuration: no MTELIB_* option macro defined. -/
def cfgDefault : MTEConfig := ⟨false, false, false, false⟩

/-- Build configuration with MTELIB_RELAXED_ALIGNMENT_CHECKS defined. -/
def cfgRelaxed : MTEConfig := ⟨false, true, false, false⟩

/-- Build configuration with MTELIB_DISABLE_DGRANULE_OPERATIONS defined. -/
def cfgNoDGranule : MTEConfig := ⟨false, false, false, true⟩

/-- VERIFY_ALIGNMENT(d, align): the advisory alignment assertion.  Returns
`true` when the assertion passes (or is compiled out). -/
def VERIFY_ALIGNMENT (cfg : MTEConfig) (d align : Nat) : Bool :=
  match cfg.noAlignmentChecks, cfg.relaxedAlignmentChecks with
  | true, _ => true
  | false, true => true
  | false, false => (d &&& align) == 0

/-- VERIFY_ALIGNMENT_CRITICAL(d, align): the critical alignment assertion,
kept even under MTELIB_RELAXED_ALIGNMENT_CHECKS.  Returns `true` when the
assertion passes (or is compiled out by MTELIB_NO_ALIGNMENT_CHECKS). -/
def VERIFY_ALIGNMENT_CRITICAL (cfg : MTEConfig) (d align : Nat) : Bool :=
  match cfg.noAlignmentChecks with
  | true => true
  | false => (d &&& align) == 0

/-! Pointer tagging primitives. -/

/-- pointerGetTag(ptr): extract the tag from bits [59:56] of the pointer. -/
def pointerGetTag (ptr : Nat) : Nat :=
  (ptr >>> TAG_SHIFT) &&& MAX_TAG

/-- The bit manipulation done by pointerSetTag once its tag assertion has
passed: clear the tag field and insert the new tag.  Only ever applied to
tags at most MAX_TAG, for which the C uint64_t arithmetic cannot wrap. -/
def insertTag (ptr tag : Nat) : Nat :=
  (ptr &&& ((UINT64_CARD - 1) ^^^ (MAX_TAG <<< TAG_SHIFT))) ||| (tag <<< TAG_SHIFT)

/-- pointerSetTag(ptr, tag): VERIFY_VALID_TAG(tag), then clear the existing
tag field of ptr and insert tag.  `none` models the fatal assertion. -/
def pointerSetTag (ptr tag : Nat) : Option Nat :=
  if tag ≤ MAX_TAG then some (insertTag ptr tag) else none

/-! Exclude mask manipulation primitives. -/

/-- Semantics of the AArch64 GMI instruction (and of the ACLE intrinsic
spelled __arm_mte_exlude_tag in the source): insert the logical address tag
held in bits [59:56] of the pointer operand into the exclude mask.  GMI is a
register-only instruction: it does not read memory or the out-of-band tag
storage. -/
def GMI (ptr mask : Nat) : Nat :=
  mask ||| (1 <<< pointerGetTag ptr)

/-- excludeMaskAddPtrTag(mask, ptr): both build paths execute GMI. -/
def excludeMaskAddPtrTag (mask ptr : Nat) : Nat :=
  GMI ptr mask

/-- excludeMaskAddTag(mask, tag): VERIFY_VALID_TAG(tag), then
mask | (1 << tag). -/
def excludeMaskAddTag (mask tag : Nat) : Option Nat :=
  if tag ≤ MAX_TAG then some (mask ||| (1 <<< tag)) else none

/-- excludeMaskRemoveTag(mask, tag): VERIFY_VALID_TAG(tag), then
mask & ~(1 << tag), with ~ taken at uint64_t width. -/
def excludeMaskRemoveTag (mask tag : Nat) : Option Nat :=
  if tag ≤ MAX_TAG then some (mask &&& ((UINT64_CARD - 1) ^^^ (1 <<< tag))) else none

/-- Tags not excluded by a mask, in increasing order.  Only bits 0..15 of the
exclude mask take part in random tag generation. -/
def allowedTags (excluded : Nat) : List Nat :=
  (List.range 16).filter (fun t => !(excluded.testBit t))

/-- Modelled from the spec: semantics of the AArch64 IRG instruction (and of
__arm_mte_create_random_tag), which is hardware, not repository code.  The
instruction inserts into the pointer a tag chosen among the tags whose bit is
clear in the exclude mask; the hardware choice is abstracted by the oracle
`choice`, which selects an arbitrary element of the allowed list.  When all
16 tags are excluded the architecture leaves the result unspecified; the
model then inserts tag 0. -/
def IRG (ptr excluded choice : Nat) : Nat :=
  insertTag ptr ((allowedTags excluded).getD (choice % (allowedTags excluded).length) 0)

/-- pointerSetRandomTag(ptr, excluded): both build paths execute IRG; the
hardware's random choice is made explicit as the extra argument. -/
def pointerSetRandomTag (ptr excluded choice : Nat) : Nat :=
  IRG ptr excluded choice

/-! Memory model.  One out-of-band tag per 16-byte granule, one value per
data byte.  Granules are indexed by translated address divided by 16. -/

/-- Translated address of a pointer: the top byte (bits [63:56], including
the tag field) is ignored for addressing. -/
def addrOf (ptr : Nat) : Nat :=
  ptr % ADDR_CARD

/-- Index of the granule containing the byte the pointer addresses. -/
def granuleOf (ptr : Nat) : Nat :=
  addrOf ptr / GRANULE_SIZE

/-- Tagging-capable memory: out-of-band tag storage (per granule index) and
data bytes (per translated byte address). -/
@[ext] structure MTEMem where
  tags : Nat → Nat
  data : Nat → Nat

/-- Semantics of the STG instruction at a given address: store the tag held
in bits [59:56] of the pointer to the tag storage of the granule containing
the addressed byte (STG ignores the low four address bits, so a misaligned
pointer tags the enclosing, aligned-down granule).  Data is untouched. -/
def STG (s : MTEMem) (ptr : Nat) : MTEMem :=
  { tags := fun g => if g = granuleOf ptr then pointerGetTag ptr else s.tags g
    data := s.data }

/-- Semantics of the ST2G instruction: like STG but tags the enclosing
granule and the one after it.  Data is untouched. -/
def ST2G (s : MTEMem) (ptr : Nat) : MTEMem :=
  { tags := fun g =>
      if g = granuleOf ptr ∨ g = granuleOf ptr + 1 then pointerGetTag ptr else s.tags g
    data := s.data }

/-- Semantics of the STZG instruction: tag the granule and zero its 16 data
bytes.  Unlike STG, the instruction faults on a misaligned address; the
library only issues it behind VERIFY_ALIGNMENT_CRITICAL, so the model is
used with granule-aligned pointers only. -/
def STZG (s : MTEMem) (ptr : Nat) : MTEMem :=
  { tags := fun g => if g = granuleOf ptr then pointerGetTag ptr else s.tags g
    data := fun a => if addrOf ptr ≤ a ∧ a < addrOf ptr + 16 then 0 else s.data a }

/-- Semantics of the STZ2G instruction: tag two consecutive granules and
zero their 32 data bytes; faults on a misaligned address (see STZG). -/
def STZ2G (s : MTEMem) (ptr : Nat) : MTEMem :=
  { tags := fun g =>
      if g = granuleOf ptr ∨ g = granuleOf ptr + 1 then pointerGetTag ptr else s.tags g
    data := fun a => if addrOf ptr ≤ a ∧ a < addrOf ptr + 32 then 0 else s.data a }

/-- One iteration of the copy loops: read the 16 data bytes at src (LDP; no
alignment requirement), then store them to dst while tagging dst's granule
with the tag in dst's bits (STGP; dst is granule-aligned behind
VERIFY_ALIGNMENT_CRITICAL).  The MTELIB_NO_INLINE_ASSEMBLY loop body
(__arm_mte_set_tag plus two 8-byte stores) has the same state effect. -/
def STGP (s : MTEMem) (dst src : Nat) : MTEMem :=
  { tags := fun g => if g = granuleOf dst then pointerGetTag dst else s.tags g
    data := fun a =>
      if addrOf dst ≤ a ∧ a < addrOf dst + 16 then s.data (addrOf src + (a - addrOf dst))
      else s.data a }

/-! The loops of the three memory operations.  The C while loops are
translated with an explicit fuel argument; the callers pass `size` as fuel,
which always dominates the iteration count (each iteration consumes at least
16 bytes of the region). -/

/-- Loop of memoryTag when inline assembly and double-granule operations are
available: ST2G with post-increment by 32 while the pointer is below end. -/
def memoryTagST2GLoop : Nat → MTEMem → Nat → Nat → MTEMem
  | 0, s, _, _ => s
  | fuel + 1, s, ptr, pend =>
    if ptr < pend then memoryTagST2GLoop fuel (ST2G s ptr) (ptr + 32) pend else s

/-- Granule-by-granule tagging loop: STG with post-increment by 16.  Used
when double-granule operations are disabled, and (via __arm_mte_set_tag,
which has the same state effect as STG) by the MTELIB_NO_INLINE_ASSEMBLY
path of memoryTag. -/
def memoryTagSTGLoop : Nat → MTEMem → Nat → Nat → MTEMem
  | 0, s, _, _ => s
  | fuel + 1, s, ptr, pend =>
    if ptr < pend then memoryTagSTGLoop fuel (STG s ptr) (ptr + 16) pend else s

/-- Loop of memoryTagAndZero with double-granule operations: STZ2G with
post-increment by 32. -/
def memoryTagSTZ2GLoop : Nat → MTEMem → Nat → Nat → MTEMem
  | 0, s, _, _ => s
  | fuel + 1, s, ptr, pend =>
    if ptr < pend then memoryTagSTZ2GLoop fuel (STZ2G s ptr) (ptr + 32) pend else s

/-- Loop of memoryTagAndZero with double-granule operations disabled: STZG
with post-increment by 16. -/
def memoryTagSTZGLoop : Nat → MTEMem → Nat → Nat → MTEMem
  | 0, s, _, _ => s
  | fuel + 1, s, ptr, pend =>
    if ptr < pend then memoryTagSTZGLoop fuel (STZG s ptr) (ptr + 16) pend else s

/-- Loop of memoryTagAndCopy: LDP from src, STGP to dst, both post-
incremented by one granule.  There is no double-granule variant of STGP, so
this loop is used regardless of MTELIB_DISABLE_DGRANULE_OPERATIONS. -/
def memoryTagSTGPLoop : Nat → MTEMem → Nat → Nat → Nat → MTEMem
  | 0, s, _, _, _ => s
  | fuel + 1, s, dst, src, pend =>
    if dst < pend then memoryTagSTGPLoop fuel (STGP s dst src) (dst + 16) (src + 16) pend
    else s

/-- memoryTag(ptr, size): advisory alignment assertions on ptr and size,
then tag every granule of [ptr, ptr+size).  With double-granule operations,
a leading single STG when size is not a multiple of DGRANULE_SIZE, then the
ST2G loop; otherwise granule-by-granule (the MTELIB_NO_INLINE_ASSEMBLY
intrinsic path is also granule-by-granule). -/
def memoryTag (cfg : MTEConfig) (s : MTEMem) (ptr size : Nat) : Option MTEMem :=
  match VERIFY_ALIGNMENT cfg ptr GRANULE_ALIGNMENT_MASK &&
        VERIFY_ALIGNMENT cfg size GRANULE_ALIGNMENT_MASK with
  | false => none
  | true =>
    some (match cfg.noInlineAssembly, cfg.disableDGranuleOperations with
      | true, _ => memoryTagSTGLoop size s ptr (ptr + size)
      | false, true => memoryTagSTGLoop size s ptr (ptr + size)
      | false, false =>
        match (size &&& DGRANULE_ALIGNMENT_MASK) == 0 with
        | false => memoryTagST2GLoop size (STG s ptr) (ptr + 16) (ptr + size)
        | true => memoryTagST2GLoop size s ptr (ptr + size))

/-- memoryTagAndZero(ptr, size): critical alignment assertions on ptr and
size, then tag and zero every granule of [ptr, ptr+size), with the same
leading-single-granule-then-double-granule strategy as memoryTag.  The
MTELIB_NO_INLINE_ASSEMBLY path of this function does not compile (it names
variables src and dst that are not in scope) and is modelled separately by
memoryTagAndZeroNoAsm; this definition covers the inline-assembly paths. -/
def memoryTagAndZero (cfg : MTEConfig) (s : MTEMem) (ptr size : Nat) : Option MTEMem :=
  match VERIFY_ALIGNMENT_CRITICAL cfg ptr GRANULE_ALIGNMENT_MASK &&
        VERIFY_ALIGNMENT_CRITICAL cfg size GRANULE_ALIGNMENT_MASK with
  | false => none
  | true =>
    some (match cfg.disableDGranuleOperations with
      | true => memoryTagSTZGLoop size s ptr (ptr + size)
      | false =>
        match (size &&& DGRANULE_ALIGNMENT_MASK) == 0 with
        | false => memoryTagSTZ2GLoop size (STZG s ptr) (ptr + 16) (ptr + size)
        | true => memoryTagSTZ2GLoop size s ptr (ptr + size))

/-- The MTELIB_NO_INLINE_ASSEMBLY path of memoryTagAndZero as written in the
source.  That code references identifiers src and dst although the enclosing
function's parameters are ptr and size, so the build does not compile; the
dangling identifiers are modelled as extra inputs.  Each iteration executes
__arm_mte_set_tag(out) and copies 16 bytes from in to out (two 8-byte
stores), which is the state effect of STGP; nothing is zeroed. -/
def memoryTagAndZeroNoAsm (s : MTEMem) (dst src size : Nat) : MTEMem :=
  memoryTagSTGPLoop size s dst src (dst + size)

/-- memoryTagAndCopy(dst, src, size): critical alignment assertions on dst
and size, then the granule-by-granule LDP/STGP loop.  No configuration
switch selects a double-granule path for this operation (STGP has no
double-granule form), and the MTELIB_NO_INLINE_ASSEMBLY path is the same
granule loop written with __arm_mte_set_tag and 8-byte stores. -/
def memoryTagAndCopy (cfg : MTEConfig) (s : MTEMem) (dst src size : Nat) : Option MTEMem :=
  match VERIFY_ALIGNMENT_CRITICAL cfg dst GRANULE_ALIGNMENT_MASK &&
        VERIFY_ALIGNMENT_CRITICAL cfg size GRANULE_ALIGNMENT_MASK with
  | false => none
  | true => some (memoryTagSTGPLoop size s dst src (dst + size))

/-! Arithmetic restatements of the bit-level definitions, used throughout
the proofs. -/

lemma and_fifteen (x : Nat) : x &&& 15 = x % 16 := by
  have h : (15 : Nat) = 2 ^ 4 - 1 := by norm_num
  rw [h, Nat.and_pow_two_sub_one_eq_mod]

lemma and_thirtyone (x : Nat) : x &&& 31 = x % 32 := by
  have h : (31 : Nat) = 2 ^ 5 - 1 := by norm_num
  rw [h, Nat.and_pow_two_sub_one_eq_mod]

lemma pointerGetTag_eq (ptr : Nat) : pointerGetTag ptr = ptr / 2 ^ 56 % 16 := by
  rw [pointerGetTag, TAG_SHIFT, MAX_TAG, Nat.shiftRight_eq_div_pow]
  exact and_fifteen _

lemma addrOf_eq (ptr : Nat) : addrOf ptr = ptr % 2 ^ 56 := rfl

lemma granuleOf_eq (ptr : Nat) : granuleOf ptr = ptr % 2 ^ 56 / 16 := rfl

lemma testBit_fifteen (i : Nat) : Nat.testBit 15 i = decide (i < 4) := by
  have h : (15 : Nat) = 2 ^ 4 - 1 := by norm_num
  rw [h, Nat.testBit_two_pow_sub_one]

lemma testBit_small {t i : Nat} (ht : t ≤ 15) (hi : 4 ≤ i) : t.testBit i = false := by
  apply Nat.testBit_lt_two_pow
  calc t < 2 ^ 4 := by omega
    _ ≤ 2 ^ i := Nat.pow_le_pow_right (by norm_num) hi

/-- Bit i of insertTag p t, for a valid tag: bits [59:56] come from the tag,
all other bits below 64 come from p, bits from 64 up are zero. -/
lemma testBit_insertTag (p t i : Nat) (ht : t ≤ MAX_TAG) :
    (insertTag p t).testBit i =
      if 56 ≤ i ∧ i < 60 then t.testBit (i - 56)
      else (p.testBit i && decide (i < 64)) := by
  rw [MAX_TAG] at ht
  simp only [insertTag, UINT64_CARD, MAX_TAG, TAG_SHIFT, Nat.testBit_lor, Nat.testBit_land,
    Nat.testBit_xor, Nat.testBit_shiftLeft, Nat.testBit_two_pow_sub_one, testBit_fifteen]
  by_cases h1 : 56 ≤ i
  · by_cases h2 : i < 60
    · have h3 : i - 56 < 4 := by omega
      have h4 : i < 64 := by omega
      simp [h1, h2, h3, h4]
    · have h3 : ¬(i - 56 < 4) := by omega
      have h4 : t.testBit (i - 56) = false := testBit_small ht (by omega)
      simp [h1, h2, h3, h4]
  · have h2 : i < 64 := by omega
    simp [h1, h2]

/-- Round-trip of the tag through a pointer, for a valid tag. -/
lemma pointerGetTag_insertTag (p t : Nat) (ht : t ≤ MAX_TAG) :
    pointerGetTag (insertTag p t) = t := by
  have ht' : t ≤ 15 := by rw [MAX_TAG] at ht; exact ht
  apply Nat.eq_of_testBit_eq
  intro i
  rw [pointerGetTag, TAG_SHIFT, MAX_TAG]
  rw [Nat.testBit_land, Nat.testBit_shiftRight, testBit_fifteen,
    testBit_insertTag _ _ _ ht]
  by_cases hi : i < 4
  · have h1 : 56 ≤ 56 + i ∧ 56 + i < 60 := by omega
    simp [h1, hi, Nat.add_sub_cancel_left]
  · have h1 : ¬(56 ≤ 56 + i ∧ 56 + i < 60) := by omega
    simp [h1, hi, testBit_small ht' (by omega : 4 ≤ i)]

/-- C5: for every pointer p and tag t in [0, 15], pointerSetTag succeeds,
pointerGetTag reads the tag back, and every bit of the result outside the
4-bit tag field at bit offset 56 equals the corresponding bit of p. -/
theorem pointerSetTag_roundTrip (p t : Nat) (ht : t ≤ 15) (hp : p < 2 ^ 64) :
    ∃ q, pointerSetTag p t = some q ∧ pointerGetTag q = t ∧
      ∀ i, i < 56 ∨ 60 ≤ i → q.testBit i = p.testBit i := by
  have htM : t ≤ MAX_TAG := by rw [MAX_TAG]; exact ht
  refine ⟨insertTag p t, ?_, pointerGetTag_insertTag p t htM, ?_⟩
  · rw [pointerSetTag, if_pos htM]
  · intro i hi
    rw [testBit_insertTag _ _ _ htM]
    have h1 : ¬(56 ≤ i ∧ i < 60) := by omega
    rw [if_neg h1]
    by_cases h2 : i < 64
    · simp [h2]
    · have : p.testBit i = false := Nat.testBit_lt_two_pow (by
        calc p < 2 ^ 64 := hp
          _ ≤ 2 ^ i := Nat.pow_le_pow_right (by norm_num) (by omega))
      simp [h2, this]

/-- C5 witness: the round-trip at a concrete pointer and tag. -/
theorem pointerSetTag_roundTrip_witness :
    (7 : Nat) ≤ 15 ∧ (0xABCDEF1234567890 : Nat) < 2 ^ 64 ∧
      ∃ q, pointerSetTag 0xABCDEF1234567890 7 = some q ∧ pointerGetTag q = 7 ∧
        ∀ i, i < 56 ∨ 60 ≤ i → q.testBit i = (0xABCDEF1234567890 : Nat).testBit i :=
  ⟨by norm_num, by norm_num,
    pointerSetTag_roundTrip 0xABCDEF1234567890 7 (by norm_num) (by norm_num)⟩

/-- C9: adding then removing a tag from an exclude mask leaves that tag's
bit clear, whatever the other bits of the mask. -/
theorem excludeMask_add_remove_clearsBit (m t : Nat) (ht : t ≤ 15) :
    ∃ m1 m2, excludeMaskAddTag m t = some m1 ∧ excludeMaskRemoveTag m1 t = some m2 ∧
      m2.testBit t = false := by
  have htM : t ≤ MAX_TAG := by rw [MAX_TAG]; exact ht
  refine ⟨_, _, by rw [excludeMaskAddTag, if_pos htM],
    by rw [excludeMaskRemoveTag, if_pos htM], ?_⟩
  have ht64 : t < 64 := by omega
  have h1 : Nat.testBit 1 0 = true := by decide
  rw [UINT64_CARD, Nat.testBit_land, Nat.testBit_xor, Nat.testBit_two_pow_sub_one,
    Nat.testBit_shiftLeft]
  simp [Nat.sub_self, ht64, h1]

/-- C9 witness: add-then-remove of tag 3 on a concrete mask. -/
theorem excludeMask_add_remove_clearsBit_witness :
    (3 : Nat) ≤ 15 ∧
      ∃ m1 m2, excludeMaskAddTag 0xABCD 3 = some m1 ∧
        excludeMaskRemoveTag m1 3 = some m2 ∧ m2.testBit 3 = false :=
  ⟨by norm_num, excludeMask_add_remove_clearsBit 0xABCD 3 (by norm_num)⟩

/-- Modelled from the spec: the behavior the spec ascribes to
excludeMaskAddPtrTag -- set the bit of the tag currently stored in the
out-of-band tag storage for the granule the pointer addresses, as a
hardware-assisted read of stored state.  Stated over the memory model so it
can be compared with the implementation, which executes GMI. -/
def excludeMaskAddPtrTagSpec (s : MTEMem) (mask ptr : Nat) : Nat :=
  mask ||| (1 <<< s.tags (granuleOf ptr))

/-- C6 counterexample: a pointer with encoded tag 5 addressing a granule
whose stored memory tag is 3.  excludeMaskAddPtrTag sets bit 5 (the tag in
the pointer's bits) and leaves bit 3 (the stored memory tag) clear, so it
does not compute what the claim describes. -/
theorem excludeMaskAddPtrTag_counterexample :
    excludeMaskAddPtrTag 0 (5 <<< 56) = 2 ^ 5 ∧
      excludeMaskAddPtrTagSpec ⟨fun _ => 3, fun _ => 0⟩ 0 (5 <<< 56) = 2 ^ 3 ∧
      Nat.testBit (excludeMaskAddPtrTag 0 (5 <<< 56)) 3 = false ∧
      Nat.testBit (excludeMaskAddPtrTag 0 (5 <<< 56)) 5 = true := by
  refine ⟨by decide, ?_, by decide, by decide⟩
  rw [excludeMaskAddPtrTagSpec]
  decide

/-- C6 amended: excludeMaskAddPtrTag sets the bit of the tag encoded in the
pointer's own bits [59:56] (GMI does not read the out-of-band tag storage),
and preserves every bit already set in the mask. -/
theorem excludeMaskAddPtrTag_setsPointerTagBit (m p : Nat) :
    Nat.testBit (excludeMaskAddPtrTag m p) (pointerGetTag p) = true ∧
      ∀ i, Nat.testBit m i = true → Nat.testBit (excludeMaskAddPtrTag m p) i = true := by
  have h1 : Nat.testBit 1 0 = true := by decide
  constructor
  · rw [excludeMaskAddPtrTag, GMI, Nat.testBit_lor, Nat.testBit_shiftLeft]
    simp [Nat.sub_self, h1]
  · intro i h
    rw [excludeMaskAddPtrTag, GMI, Nat.testBit_lor, h]
    rfl

/-- C6 amended witness: concrete mask and pointer. -/
theorem excludeMaskAddPtrTag_setsPointerTagBit_witness :
    Nat.testBit (excludeMaskAddPtrTag 4 (5 <<< 56)) (pointerGetTag (5 <<< 56)) = true ∧
      Nat.testBit (excludeMaskAddPtrTag 4 (5 <<< 56)) 2 = true :=
  ⟨(excludeMaskAddPtrTag_setsPointerTagBit 4 (5 <<< 56)).1,
    (excludeMaskAddPtrTag_setsPointerTagBit 4 (5 <<< 56)).2 2 (by decide)⟩

/-- Partition of a list's length by a filter and its negation. -/
lemma length_filter_add_length_filter_not (p : Nat → Bool) :
    ∀ l : List Nat,
      (l.filter p).length + (l.filter (fun a => !(p a))).length = l.length := by
  intro l
  induction l with
  | nil => rfl
  | cons a l ih =>
    by_cases h : p a <;> simp [List.filter_cons, h] <;> omega

/-- C3: whenever the exclude mask excludes fewer than 16 of the 16 tag
values, the tag encoded into the pointer returned by pointerSetRandomTag has
its bit clear in the mask, for every hardware choice -- an excluded tag is
never produced. -/
theorem pointerSetRandomTag_neverExcluded (p m c : Nat)
    (h : ((List.range 16).filter (fun t => m.testBit t)).length < 16) :
    Nat.testBit m (pointerGetTag (pointerSetRandomTag p m c)) = false := by
  have hpart := length_filter_add_length_filter_not (fun t => m.testBit t) (List.range 16)
  rw [List.length_range] at hpart
  have hpos : 0 < (allowedTags m).length := by
    rw [allowedTags]
    omega
  have hidx : c % (allowedTags m).length < (allowedTags m).length := Nat.mod_lt _ hpos
  have hmem : (allowedTags m).getD (c % (allowedTags m).length) 0 ∈ allowedTags m := by
    rw [List.getD_eq_getElem _ _ hidx]
    exact List.getElem_mem _
  generalize hT : (allowedTags m).getD (c % (allowedTags m).length) 0 = T at hmem
  rw [allowedTags] at hmem
  have hbit := (List.mem_filter.mp hmem).2
  have hrange := List.mem_range.mp (List.mem_filter.mp hmem).1
  have hle : T ≤ MAX_TAG := by
    rw [MAX_TAG]
    omega
  rw [pointerSetRandomTag, IRG, hT, pointerGetTag_insertTag _ _ hle]
  simpa using hbit

/-- C3 witness: a mask excluding tags 1..15; the generated tag's bit is
clear in it, whatever the hardware chose. -/
theorem pointerSetRandomTag_neverExcluded_witness :
    ((List.range 16).filter (fun t => (0xFFFE : Nat).testBit t)).length < 16 ∧
      Nat.testBit 0xFFFE (pointerGetTag (pointerSetRandomTag 0x1234 0xFFFE 99)) = false :=
  ⟨by decide, pointerSetRandomTag_neverExcluded 0x1234 0xFFFE 99 (by decide)⟩

/-! Stepping lemmas: advancing a pointer within the address space moves the
granule index and leaves the tag bits alone. -/

lemma pointerGetTag_add (ptr k : Nat) (h : ptr % 2 ^ 56 + k < 2 ^ 56) :
    pointerGetTag (ptr + k) = pointerGetTag ptr := by
  rw [pointerGetTag_eq, pointerGetTag_eq]
  omega

lemma granuleOf_add_32 (ptr : Nat) (h : ptr % 2 ^ 56 + 32 < 2 ^ 56) :
    granuleOf (ptr + 32) = granuleOf ptr + 2 := by
  rw [granuleOf_eq, granuleOf_eq]
  omega

lemma granuleOf_add_16 (ptr : Nat) (h : ptr % 2 ^ 56 + 16 < 2 ^ 56) :
    granuleOf (ptr + 16) = granuleOf ptr + 1 := by
  rw [granuleOf_eq, granuleOf_eq]
  omega

lemma addrOf_add_16 (ptr : Nat) (h : ptr % 2 ^ 56 + 16 < 2 ^ 56) :
    addrOf (ptr + 16) = addrOf ptr + 16 := by
  rw [addrOf_eq, addrOf_eq]
  omega

/-- The ST2G loop never touches data. -/
lemma memoryTagST2GLoop_data (fuel : Nat) :
    ∀ s ptr pend a, (memoryTagST2GLoop fuel s ptr pend).data a = s.data a := by
  induction fuel with
  | zero => intro s ptr pend a; rfl
  | succ f ih =>
    intro s ptr pend a
    simp only [memoryTagST2GLoop]
    split
    · rw [ih]
      rfl
    · rfl

/-- Running the ST2G loop over [ptr, ptr + 32n) tags exactly the 2n granules
from the one containing ptr, with the tag encoded in ptr. -/
lemma memoryTagST2GLoop_tags (n : Nat) :
    ∀ fuel s ptr, n ≤ fuel → addrOf ptr + 32 * n ≤ 2 ^ 56 →
      ∀ g, (memoryTagST2GLoop fuel s ptr (ptr + 32 * n)).tags g =
        if granuleOf ptr ≤ g ∧ g < granuleOf ptr + 2 * n then pointerGetTag ptr
        else s.tags g := by
  induction n with
  | zero =>
    intro fuel s ptr _ _ g
    rw [if_neg (by omega : ¬(granuleOf ptr ≤ g ∧ g < granuleOf ptr + 2 * 0))]
    cases fuel with
    | zero => rfl
    | succ f =>
      simp only [memoryTagST2GLoop]
      rw [if_neg (by omega : ¬(ptr < ptr + 32 * 0))]
  | succ m ih =>
    intro fuel s ptr hfuel hbound g
    rw [addrOf_eq] at hbound
    cases fuel with
    | zero => omega
    | succ f =>
      simp only [memoryTagST2GLoop]
      rw [if_pos (by omega : ptr < ptr + 32 * (m + 1))]
      rw [show ptr + 32 * (m + 1) = (ptr + 32) + 32 * m by ring]
      rw [ih f (ST2G s ptr) (ptr + 32) (by omega)
        (by rw [addrOf_eq]; omega) g]
      rcases Nat.eq_zero_or_pos m with hm | hm
      · subst hm
        rw [if_neg (by omega : ¬(granuleOf (ptr + 32) ≤ g ∧ g < granuleOf (ptr + 32) + 2 * 0))]
        dsimp only [ST2G]
        split_ifs <;> first | rfl | omega
      · rw [granuleOf_add_32 ptr (by omega), pointerGetTag_add ptr 32 (by omega)]
        dsimp only [ST2G]
        split_ifs <;> first | rfl | omega

/-! Evaluated forms of the configuration-dependent helpers. -/

lemma GRANULE_ALIGNMENT_MASK_eq : GRANULE_ALIGNMENT_MASK = 15 := rfl

lemma DGRANULE_ALIGNMENT_MASK_eq : DGRANULE_ALIGNMENT_MASK = 31 := rfl

lemma VERIFY_ALIGNMENT_default (d align : Nat) :
    VERIFY_ALIGNMENT cfgDefault d align = ((d &&& align) == 0) := rfl

lemma VERIFY_ALIGNMENT_relaxed (d align : Nat) :
    VERIFY_ALIGNMENT cfgRelaxed d align = true := rfl

lemma VERIFY_ALIGNMENT_CRITICAL_default (d align : Nat) :
    VERIFY_ALIGNMENT_CRITICAL cfgDefault d align = ((d &&& align) == 0) := rfl

lemma VERIFY_ALIGNMENT_CRITICAL_relaxed (d align : Nat) :
    VERIFY_ALIGNMENT_CRITICAL cfgRelaxed d align = ((d &&& align) == 0) := rfl

/-- Effect of memoryTag's inline-assembly body when size is a multiple of
the double-granule size: the ST2G loop alone covers the whole region. -/
lemma memoryTag_loop_case32 (s : MTEMem) (ptr size : Nat) (hs : size % 32 = 0)
    (hb : addrOf ptr + size ≤ 2 ^ 56) :
    memoryTagST2GLoop size s ptr (ptr + size) =
      { tags := fun g =>
          if granuleOf ptr ≤ g ∧ g < granuleOf ptr + size / 16 then pointerGetTag ptr
          else s.tags g
        data := s.data } := by
  rw [addrOf_eq] at hb
  refine MTEMem.ext ?_ ?_
  · funext g
    rw [show ptr + size = ptr + 32 * (size / 32) by omega]
    rw [memoryTagST2GLoop_tags (size / 32) size s ptr (by omega)
      (by rw [addrOf_eq]; omega) g]
    rw [show 2 * (size / 32) = size / 16 by omega]
  · funext a
    rw [memoryTagST2GLoop_data size s ptr (ptr + size) a]

/-- Effect of memoryTag's inline-assembly body when size is an odd multiple
of the granule size: one leading STG, then the ST2G loop. -/
lemma memoryTag_loop_case16 (s : MTEMem) (ptr size : Nat) (hs : size % 16 = 0)
    (h32 : size % 32 ≠ 0) (hb : addrOf ptr + size ≤ 2 ^ 56) :
    memoryTagST2GLoop size (STG s ptr) (ptr + 16) (ptr + size) =
      { tags := fun g =>
          if granuleOf ptr ≤ g ∧ g < granuleOf ptr + size / 16 then pointerGetTag ptr
          else s.tags g
        data := s.data } := by
  rw [addrOf_eq] at hb
  have hdiv : size / 16 = 1 + 2 * ((size - 16) / 32) := by omega
  refine MTEMem.ext ?_ ?_
  · funext g
    rw [show ptr + size = (ptr + 16) + 32 * ((size - 16) / 32) by omega]
    rw [memoryTagST2GLoop_tags ((size - 16) / 32) size (STG s ptr) (ptr + 16) (by omega)
      (by rw [addrOf_eq]; omega) g]
    rcases Nat.eq_zero_or_pos ((size - 16) / 32) with hn | hn
    · rw [hn]
      rw [if_neg (by omega : ¬(granuleOf (ptr + 16) ≤ g ∧ g < granuleOf (ptr + 16) + 2 * 0))]
      dsimp only [STG]
      split_ifs <;> first | rfl | omega
    · rw [granuleOf_add_16 ptr (by omega), pointerGetTag_add ptr 16 (by omega)]
      dsimp only [STG]
      split_ifs <;> first | rfl | omega
  · funext a
    rw [memoryTagST2GLoop_data size (STG s ptr) (ptr + 16) (ptr + size) a]
    rfl

/-- C1: in the default build configuration, for a granule-aligned pointer
and a size that is a multiple of the granule size, memoryTag stores the tag
encoded in the pointer into the tag storage of exactly the granules of
[ptr, ptr+size) -- via a leading single-granule STG when size is not a
multiple of the double-granule size, then double-granule ST2G steps -- and
leaves all data bytes untouched. -/
theorem memoryTag_default_tagsExactRange (s : MTEMem) (ptr size : Nat)
    (hp : ptr % 16 = 0) (hs : size % 16 = 0) (hb : addrOf ptr + size ≤ 2 ^ 56) :
    memoryTag cfgDefault s ptr size =
      some { tags := fun g =>
               if granuleOf ptr ≤ g ∧ g < granuleOf ptr + size / 16 then pointerGetTag ptr
               else s.tags g
             data := s.data } := by
  have hchk : (VERIFY_ALIGNMENT cfgDefault ptr GRANULE_ALIGNMENT_MASK &&
      VERIFY_ALIGNMENT cfgDefault size GRANULE_ALIGNMENT_MASK) = true := by
    rw [VERIFY_ALIGNMENT_default, VERIFY_ALIGNMENT_default, GRANULE_ALIGNMENT_MASK_eq,
      and_fifteen, and_fifteen, hp, hs]
    rfl
  have hand : size &&& DGRANULE_ALIGNMENT_MASK = size % 32 := by
    rw [DGRANULE_ALIGNMENT_MASK_eq, and_thirtyone]
  simp only [memoryTag, hchk]
  by_cases h32 : size % 32 = 0
  · have hbeq : ((size &&& DGRANULE_ALIGNMENT_MASK) == 0) = true := by
      rw [hand, h32]
      rfl
    rw [hbeq]
    exact congrArg some (memoryTag_loop_case32 s ptr size h32 hb)
  · have hbeq : ((size &&& DGRANULE_ALIGNMENT_MASK) == 0) = false := by
      rw [hand]
      simp [h32]
    rw [hbeq]
    exact congrArg some (memoryTag_loop_case16 s ptr size hs h32 hb)

/-- Shared concrete memory state used by witnesses and counterexamples. -/
def sampleMem : MTEMem := ⟨fun _ => 0, fun a => a % 256⟩

/-- C1 witness: tagging 48 bytes (an odd number of granules, so the leading
single-granule step runs) at an aligned pointer carrying tag 3. -/
theorem memoryTag_default_tagsExactRange_witness :
    (3 <<< 56 + 32 : Nat) % 16 = 0 ∧ (48 : Nat) % 16 = 0 ∧
      addrOf (3 <<< 56 + 32) + 48 ≤ 2 ^ 56 ∧
      memoryTag cfgDefault sampleMem (3 <<< 56 + 32) 48 =
        some { tags := fun g =>
                 if granuleOf (3 <<< 56 + 32) ≤ g ∧
                     g < granuleOf (3 <<< 56 + 32) + 48 / 16 then
                   pointerGetTag (3 <<< 56 + 32)
                 else sampleMem.tags g
               data := sampleMem.data } :=
  ⟨by decide, by decide, by decide,
    memoryTag_default_tagsExactRange sampleMem (3 <<< 56 + 32) 48 (by decide) (by decide)
      (by decide)⟩

/-- C7 counterexample: in the default build configuration, calling memoryTag
with a pointer that is not granule-aligned does trigger the fatal
contract-violation assertion (the advisory VERIFY_ALIGNMENT is compiled in
by default), so the call is an error rather than an over-tagging no-op. -/
theorem memoryTag_default_misaligned_asserts :
    memoryTag cfgDefault sampleMem 1 16 = none := rfl

/-- C7 amended: with the advisory checks relaxed (or disabled), a misaligned
pointer is tolerated: no assertion fires, and the hardware aligns each store
down to its granule, so the tagged granules are exactly those of
[align16(ptr), align16(ptr) + size) -- a window that starts up to 15 bytes
before ptr and misses the final (ptr mod 16) bytes of [ptr, ptr+size). -/
theorem memoryTag_relaxed_misaligned_shiftsWindow (s : MTEMem) (ptr size : Nat)
    (hs : size % 16 = 0) (hb : addrOf ptr + size ≤ 2 ^ 56) :
    memoryTag cfgRelaxed s ptr size =
      some { tags := fun g =>
               if granuleOf ptr ≤ g ∧ g < granuleOf ptr + size / 16 then pointerGetTag ptr
               else s.tags g
             data := s.data } := by
  have hchk : (VERIFY_ALIGNMENT cfgRelaxed ptr GRANULE_ALIGNMENT_MASK &&
      VERIFY_ALIGNMENT cfgRelaxed size GRANULE_ALIGNMENT_MASK) = true := rfl
  have hand : size &&& DGRANULE_ALIGNMENT_MASK = size % 32 := by
    rw [DGRANULE_ALIGNMENT_MASK_eq, and_thirtyone]
  simp only [memoryTag, hchk]
  by_cases h32 : size % 32 = 0
  · have hbeq : ((size &&& DGRANULE_ALIGNMENT_MASK) == 0) = true := by
      rw [hand, h32]
      rfl
    rw [hbeq]
    exact congrArg some (memoryTag_loop_case32 s ptr size h32 hb)
  · have hbeq : ((size &&& DGRANULE_ALIGNMENT_MASK) == 0) = false := by
      rw [hand]
      simp [h32]
    rw [hbeq]
    exact congrArg some (memoryTag_loop_case16 s ptr size hs h32 hb)

/-- C7 amended witness: a pointer misaligned by one byte, relaxed checks. -/
theorem memoryTag_relaxed_misaligned_shiftsWindow_witness :
    (48 : Nat) % 16 = 0 ∧ addrOf 17 + 48 ≤ 2 ^ 56 ∧
      memoryTag cfgRelaxed sampleMem 17 48 =
        some { tags := fun g =>
                 if granuleOf 17 ≤ g ∧ g < granuleOf 17 + 48 / 16 then pointerGetTag 17
                 else sampleMem.tags g
               data := sampleMem.data } :=
  ⟨by decide, by decide,
    memoryTag_relaxed_misaligned_shiftsWindow sampleMem 17 48 (by decide) (by decide)⟩

/-- C8: in the default build configuration, a destination pointer misaligned
by one byte makes memoryTagAndZero and memoryTagAndCopy fail their critical
contract-violation assertion before touching any memory: the call aborts
instead of truncating or adjusting. -/
theorem criticalOps_misalignedByOne_assert (s : MTEMem) (d src size : Nat)
    (hd : d % 16 = 1) :
    memoryTagAndZero cfgDefault s d size = none ∧
      memoryTagAndCopy cfgDefault s d src size = none := by
  have hptr : ((d &&& GRANULE_ALIGNMENT_MASK) == 0) = false := by
    rw [GRANULE_ALIGNMENT_MASK_eq, and_fifteen, hd]
    rfl
  constructor
  · simp only [memoryTagAndZero, VERIFY_ALIGNMENT_CRITICAL_default, hptr, Bool.false_and]
  · simp only [memoryTagAndCopy, VERIFY_ALIGNMENT_CRITICAL_default, hptr, Bool.false_and]

/-- C8 witness: destination 17 = 16 + 1. -/
theorem criticalOps_misalignedByOne_assert_witness :
    (17 : Nat) % 16 = 1 ∧
      memoryTagAndZero cfgDefault sampleMem 17 32 = none ∧
      memoryTagAndCopy cfgDefault sampleMem 17 64 32 = none :=
  ⟨by decide, criticalOps_misalignedByOne_assert sampleMem 17 64 32 (by decide)⟩

/-- C10 counterexample: with size 0 but an unaligned pointer, the default
build's advisory assertion fires in memoryTag, so a size-zero call does not
return normally for every pointer. -/
theorem memoryTag_sizeZero_unaligned_asserts :
    memoryTag cfgDefault sampleMem 1 0 = none := rfl

/-- C10 amended: for a granule-aligned pointer, the three bulk operations
with size 0 pass their assertions, run their loops zero times, and return
with the memory state untouched. -/
theorem bulkOps_sizeZero_noop (s : MTEMem) (ptr src : Nat) (hp : ptr % 16 = 0) :
    memoryTag cfgDefault s ptr 0 = some s ∧
      memoryTagAndZero cfgDefault s ptr 0 = some s ∧
      memoryTagAndCopy cfgDefault s ptr src 0 = some s := by
  have hptr : ((ptr &&& GRANULE_ALIGNMENT_MASK) == 0) = true := by
    rw [GRANULE_ALIGNMENT_MASK_eq, and_fifteen, hp]
    rfl
  have h0 : ((0 &&& GRANULE_ALIGNMENT_MASK) == 0) = true := rfl
  refine ⟨?_, ?_, ?_⟩
  · simp only [memoryTag, VERIFY_ALIGNMENT_default, hptr, h0, Bool.true_and]
    rfl
  · simp only [memoryTagAndZero, VERIFY_ALIGNMENT_CRITICAL_default, hptr, h0, Bool.true_and]
    rfl
  · simp only [memoryTagAndCopy, VERIFY_ALIGNMENT_CRITICAL_default, hptr, h0, Bool.true_and]
    rfl

/-- C10 amended witness: size-zero calls at an aligned pointer. -/
theorem bulkOps_sizeZero_noop_witness :
    (16 : Nat) % 16 = 0 ∧
      memoryTag cfgDefault sampleMem 16 0 = some sampleMem ∧
      memoryTagAndZero cfgDefault sampleMem 16 0 = some sampleMem ∧
      memoryTagAndCopy cfgDefault sampleMem 16 80 0 = some sampleMem :=
  ⟨by decide, bulkOps_sizeZero_noop sampleMem 16 80 (by decide)⟩

lemma addrOf_add (ptr k : Nat) (h : ptr % 2 ^ 56 + k < 2 ^ 56) :
    addrOf (ptr + k) = addrOf ptr + k := by
  rw [addrOf_eq, addrOf_eq]
  omega

/-- Running the STZ2G loop over [ptr, ptr + 32n) tags exactly the 2n
granules from the one containing ptr. -/
lemma memoryTagSTZ2GLoop_tags (n : Nat) :
    ∀ fuel s ptr, n ≤ fuel → addrOf ptr + 32 * n ≤ 2 ^ 56 →
      ∀ g, (memoryTagSTZ2GLoop fuel s ptr (ptr + 32 * n)).tags g =
        if granuleOf ptr ≤ g ∧ g < granuleOf ptr + 2 * n then pointerGetTag ptr
        else s.tags g := by
  induction n with
  | zero =>
    intro fuel s ptr _ _ g
    rw [if_neg (by omega : ¬(granuleOf ptr ≤ g ∧ g < granuleOf ptr + 2 * 0))]
    cases fuel with
    | zero => rfl
    | succ f =>
      simp only [memoryTagSTZ2GLoop]
      rw [if_neg (by omega : ¬(ptr < ptr + 32 * 0))]
  | succ m ih =>
    intro fuel s ptr hfuel hbound g
    rw [addrOf_eq] at hbound
    cases fuel with
    | zero => omega
    | succ f =>
      simp only [memoryTagSTZ2GLoop]
      rw [if_pos (by omega : ptr < ptr + 32 * (m + 1))]
      rw [show ptr + 32 * (m + 1) = (ptr + 32) + 32 * m by ring]
      rw [ih f (STZ2G s ptr) (ptr + 32) (by omega) (by rw [addrOf_eq]; omega) g]
      rcases Nat.eq_zero_or_pos m with hm | hm
      · subst hm
        rw [if_neg (by omega : ¬(granuleOf (ptr + 32) ≤ g ∧ g < granuleOf (ptr + 32) + 2 * 0))]
        dsimp only [STZ2G]
        split_ifs <;> first | rfl | omega
      · rw [granuleOf_add_32 ptr (by omega), pointerGetTag_add ptr 32 (by omega)]
        dsimp only [STZ2G]
        split_ifs <;> first | rfl | omega

/-- Running the STZ2G loop over [ptr, ptr + 32n) zeroes exactly the data
bytes of that address range. -/
lemma memoryTagSTZ2GLoop_data (n : Nat) :
    ∀ fuel s ptr, n ≤ fuel → addrOf ptr + 32 * n ≤ 2 ^ 56 →
      ∀ a, (memoryTagSTZ2GLoop fuel s ptr (ptr + 32 * n)).data a =
        if addrOf ptr ≤ a ∧ a < addrOf ptr + 32 * n then 0 else s.data a := by
  induction n with
  | zero =>
    intro fuel s ptr _ _ a
    rw [if_neg (by omega : ¬(addrOf ptr ≤ a ∧ a < addrOf ptr + 32 * 0))]
    cases fuel with
    | zero => rfl
    | succ f =>
      simp only [memoryTagSTZ2GLoop]
      rw [if_neg (by omega : ¬(ptr < ptr + 32 * 0))]
  | succ m ih =>
    intro fuel s ptr hfuel hbound a
    rw [addrOf_eq] at hbound
    cases fuel with
    | zero => omega
    | succ f =>
      simp only [memoryTagSTZ2GLoop]
      rw [if_pos (by omega : ptr < ptr + 32 * (m + 1))]
      rw [show ptr + 32 * (m + 1) = (ptr + 32) + 32 * m by ring]
      rw [ih f (STZ2G s ptr) (ptr + 32) (by omega) (by rw [addrOf_eq]; omega) a]
      rcases Nat.eq_zero_or_pos m with hm | hm
      · subst hm
        rw [if_neg (by omega : ¬(addrOf (ptr + 32) ≤ a ∧ a < addrOf (ptr + 32) + 32 * 0))]
        dsimp only [STZ2G]
      · rw [addrOf_add ptr 32 (by omega)]
        dsimp only [STZ2G]
        split_ifs <;> first | rfl | omega

/-- Effect of memoryTagAndZero's inline-assembly body when size is a
multiple of the double-granule size. -/
lemma memoryTagAndZero_loop_case32 (s : MTEMem) (ptr size : Nat) (hs : size % 32 = 0)
    (hb : addrOf ptr + size ≤ 2 ^ 56) :
    memoryTagSTZ2GLoop size s ptr (ptr + size) =
      { tags := fun g =>
          if granuleOf ptr ≤ g ∧ g < granuleOf ptr + size / 16 then pointerGetTag ptr
          else s.tags g
        data := fun a => if addrOf ptr ≤ a ∧ a < addrOf ptr + size then 0 else s.data a } := by
  rw [addrOf_eq] at hb
  refine MTEMem.ext ?_ ?_
  · funext g
    rw [show ptr + size = ptr + 32 * (size / 32) by omega]
    rw [memoryTagSTZ2GLoop_tags (size / 32) size s ptr (by omega)
      (by rw [addrOf_eq]; omega) g]
    rw [show 2 * (size / 32) = size / 16 by omega]
  · funext a
    rw [show ptr + size = ptr + 32 * (size / 32) by omega]
    rw [memoryTagSTZ2GLoop_data (size / 32) size s ptr (by omega)
      (by rw [addrOf_eq]; omega) a]
    rw [show 32 * (size / 32) = size by omega]

/-- Effect of memoryTagAndZero's inline-assembly body when size is an odd
multiple of the granule size: one leading STZG, then the STZ2G loop. -/
lemma memoryTagAndZero_loop_case16 (s : MTEMem) (ptr size : Nat) (hs : size % 16 = 0)
    (h32 : size % 32 ≠ 0) (hb : addrOf ptr + size ≤ 2 ^ 56) :
    memoryTagSTZ2GLoop size (STZG s ptr) (ptr + 16) (ptr + size) =
      { tags := fun g =>
          if granuleOf ptr ≤ g ∧ g < granuleOf ptr + size / 16 then pointerGetTag ptr
          else s.tags g
        data := fun a => if addrOf ptr ≤ a ∧ a < addrOf ptr + size then 0 else s.data a } := by
  rw [addrOf_eq] at hb
  have hdiv : size / 16 = 1 + 2 * ((size - 16) / 32) := by omega
  refine MTEMem.ext ?_ ?_
  · funext g
    rw [show ptr + size = (ptr + 16) + 32 * ((size - 16) / 32) by omega]
    rw [memoryTagSTZ2GLoop_tags ((size - 16) / 32) size (STZG s ptr) (ptr + 16) (by omega)
      (by rw [addrOf_eq]; omega) g]
    rcases Nat.eq_zero_or_pos ((size - 16) / 32) with hn | hn
    · rw [hn]
      rw [if_neg (by omega : ¬(granuleOf (ptr + 16) ≤ g ∧ g < granuleOf (ptr + 16) + 2 * 0))]
      dsimp only [STZG]
      have hs16 : size / 16 = 1 := by omega
      rw [hs16]
      split_ifs <;> first | rfl | omega
    · rw [granuleOf_add_16 ptr (by omega), pointerGetTag_add ptr 16 (by omega)]
      dsimp only [STZG]
      split_ifs <;> first | rfl | omega
  · funext a
    rw [show ptr + size = (ptr + 16) + 32 * ((size - 16) / 32) by omega]
    rw [memoryTagSTZ2GLoop_data ((size - 16) / 32) size (STZG s ptr) (ptr + 16) (by omega)
      (by rw [addrOf_eq]; omega) a]
    rcases Nat.eq_zero_or_pos ((size - 16) / 32) with hn | hn
    · rw [hn]
      rw [if_neg (by omega : ¬(addrOf (ptr + 16) ≤ a ∧ a < addrOf (ptr + 16) + 32 * 0))]
      dsimp only [STZG]
      split_ifs <;> first | rfl | omega
    · rw [addrOf_add ptr 16 (by omega)]
      dsimp only [STZG]
      split_ifs <;> first | rfl | omega

/-- Inline-assembly paths of memoryTagAndZero do what the contract says:
every granule of the (aligned) region is tagged with the pointer's tag and
every data byte of the region is zeroed.  Stated for the default build; the
contrast is the MTELIB_NO_INLINE_ASSEMBLY path, see
memoryTagAndZeroNoAsm_doesNotZero. -/
lemma memoryTagAndZero_default_tagsAndZeroes (s : MTEMem) (ptr size : Nat)
    (hp : ptr % 16 = 0) (hs : size % 16 = 0) (hb : addrOf ptr + size ≤ 2 ^ 56) :
    memoryTagAndZero cfgDefault s ptr size =
      some { tags := fun g =>
               if granuleOf ptr ≤ g ∧ g < granuleOf ptr + size / 16 then pointerGetTag ptr
               else s.tags g
             data := fun a => if addrOf ptr ≤ a ∧ a < addrOf ptr + size then 0
               else s.data a } := by
  have hchk : (VERIFY_ALIGNMENT_CRITICAL cfgDefault ptr GRANULE_ALIGNMENT_MASK &&
      VERIFY_ALIGNMENT_CRITICAL cfgDefault size GRANULE_ALIGNMENT_MASK) = true := by
    rw [VERIFY_ALIGNMENT_CRITICAL_default, VERIFY_ALIGNMENT_CRITICAL_default,
      GRANULE_ALIGNMENT_MASK_eq, and_fifteen, and_fifteen, hp, hs]
    rfl
  have hand : size &&& DGRANULE_ALIGNMENT_MASK = size % 32 := by
    rw [DGRANULE_ALIGNMENT_MASK_eq, and_thirtyone]
  simp only [memoryTagAndZero, hchk]
  by_cases h32 : size % 32 = 0
  · have hbeq : ((size &&& DGRANULE_ALIGNMENT_MASK) == 0) = true := by
      rw [hand, h32]
      rfl
    rw [hbeq]
    exact congrArg some (memoryTagAndZero_loop_case32 s ptr size h32 hb)
  · have hbeq : ((size &&& DGRANULE_ALIGNMENT_MASK) == 0) = false := by
      rw [hand]
      simp [h32]
    rw [hbeq]
    exact congrArg some (memoryTagAndZero_loop_case16 s ptr size hs h32 hb)

/-- C2: the MTELIB_NO_INLINE_ASSEMBLY path of memoryTagAndZero, taken as
written (with its out-of-scope src and dst made explicit), copies data into
the destination instead of zeroing it: after a 16-byte call on memory whose
bytes are all 7, the first destination byte is still 7, not 0.  So the
claim's zeroing guarantee does not hold in every build configuration. -/
theorem memoryTagAndZeroNoAsm_doesNotZero :
    (memoryTagAndZeroNoAsm ⟨fun _ => 0, fun _ => 7⟩ 0 256 16).data 0 = 7 ∧ (7 : Nat) ≠ 0 :=
  ⟨rfl, by decide⟩

/-- Running the copy loop over n granules tags exactly the n destination
granules with the tag encoded in the destination pointer. -/
lemma memoryTagSTGPLoop_tags (n : Nat) :
    ∀ fuel s dst src, n ≤ fuel → addrOf dst + 16 * n ≤ 2 ^ 56 →
      ∀ g, (memoryTagSTGPLoop fuel s dst src (dst + 16 * n)).tags g =
        if granuleOf dst ≤ g ∧ g < granuleOf dst + n then pointerGetTag dst
        else s.tags g := by
  induction n with
  | zero =>
    intro fuel s dst src _ _ g
    rw [if_neg (by omega : ¬(granuleOf dst ≤ g ∧ g < granuleOf dst + 0))]
    cases fuel with
    | zero => rfl
    | succ f =>
      simp only [memoryTagSTGPLoop]
      rw [if_neg (by omega : ¬(dst < dst + 16 * 0))]
  | succ m ih =>
    intro fuel s dst src hfuel hbound g
    rw [addrOf_eq] at hbound
    cases fuel with
    | zero => omega
    | succ f =>
      simp only [memoryTagSTGPLoop]
      rw [if_pos (by omega : dst < dst + 16 * (m + 1))]
      rw [show dst + 16 * (m + 1) = (dst + 16) + 16 * m by ring]
      rw [ih f (STGP s dst src) (dst + 16) (src + 16) (by omega)
        (by rw [addrOf_eq]; omega) g]
      rcases Nat.eq_zero_or_pos m with hm | hm
      · subst hm
        rw [if_neg (by omega : ¬(granuleOf (dst + 16) ≤ g ∧ g < granuleOf (dst + 16) + 0))]
        dsimp only [STGP]
        split_ifs <;> first | rfl | omega
      · rw [granuleOf_add_16 dst (by omega), pointerGetTag_add dst 16 (by omega)]
        dsimp only [STGP]
        split_ifs <;> first | rfl | omega

/-- Running the copy loop over n granules, with source and destination
ranges disjoint, copies the n granules of data from the source range to the
destination range and touches no other byte. -/
lemma memoryTagSTGPLoop_data (n : Nat) :
    ∀ fuel s dst src, n ≤ fuel →
      addrOf dst + 16 * n ≤ 2 ^ 56 → addrOf src + 16 * n ≤ 2 ^ 56 →
      (addrOf dst + 16 * n ≤ addrOf src ∨ addrOf src + 16 * n ≤ addrOf dst) →
      ∀ a, (memoryTagSTGPLoop fuel s dst src (dst + 16 * n)).data a =
        if addrOf dst ≤ a ∧ a < addrOf dst + 16 * n then
          s.data (addrOf src + (a - addrOf dst))
        else s.data a := by
  induction n with
  | zero =>
    intro fuel s dst src _ _ _ _ a
    rw [if_neg (by omega : ¬(addrOf dst ≤ a ∧ a < addrOf dst + 16 * 0))]
    cases fuel with
    | zero => rfl
    | succ f =>
      simp only [memoryTagSTGPLoop]
      rw [if_neg (by omega : ¬(dst < dst + 16 * 0))]
  | succ m ih =>
    intro fuel s dst src hfuel hbd hbs hdisj a
    simp only [addrOf_eq] at hbd hbs hdisj
    cases fuel with
    | zero => omega
    | succ f =>
      simp only [memoryTagSTGPLoop]
      rw [if_pos (by omega : dst < dst + 16 * (m + 1))]
      rw [show dst + 16 * (m + 1) = (dst + 16) + 16 * m by ring]
      rw [ih f (STGP s dst src) (dst + 16) (src + 16) (by omega)
        (by simp only [addrOf_eq]; omega) (by simp only [addrOf_eq]; omega)
        (by simp only [addrOf_eq]; omega) a]
      rcases Nat.eq_zero_or_pos m with hm | hm
      · subst hm
        rw [if_neg (by omega : ¬(addrOf (dst + 16) ≤ a ∧ a < addrOf (dst + 16) + 16 * 0))]
        dsimp only [STGP]
      · rw [addrOf_add dst 16 (by omega), addrOf_add src 16 (by omega)]
        dsimp only [STGP]
        simp only [addrOf_eq]
        split_ifs <;> first | rfl | omega | (exact congrArg s.data (by omega))

/-- C4 counterexample: with overlapping regions the claim's quantification
over every source fails.  Destination 16 (granule-aligned), source 8, size
32: the loop's second granule rereads bytes its first granule already
overwrote, so the final byte at destination offset 16 (address 32) is 16,
while the byte originally at source offset 16 (address 24) was 24. -/
theorem memoryTagAndCopy_overlap_counterexample :
    (memoryTagAndCopy cfgDefault sampleMem 16 8 32).map (fun m => m.data 32) = some 16 ∧
      sampleMem.data (8 + 16) = 24 ∧ (16 : Nat) ≠ 24 :=
  ⟨rfl, rfl, by decide⟩

/-- C4 amended: for a granule-aligned destination, a size that is a
multiple of the granule size, and source and destination ranges that do not
overlap, memoryTagAndCopy copies the size bytes of the source range to the
destination range granule by granule, tags every destination granule with
the destination pointer's encoded tag, and touches nothing else; and the
result does not depend on the double-granule configuration switch (the
operation has no double-granule fast path). -/
theorem memoryTagAndCopy_default_copiesAndTags (s : MTEMem) (dst src size : Nat)
    (hd : dst % 16 = 0) (hs : size % 16 = 0)
    (hbd : addrOf dst + size ≤ 2 ^ 56) (hbs : addrOf src + size ≤ 2 ^ 56)
    (hdisj : addrOf dst + size ≤ addrOf src ∨ addrOf src + size ≤ addrOf dst) :
    memoryTagAndCopy cfgDefault s dst src size =
      some { tags := fun g =>
               if granuleOf dst ≤ g ∧ g < granuleOf dst + size / 16 then pointerGetTag dst
               else s.tags g
             data := fun a =>
               if addrOf dst ≤ a ∧ a < addrOf dst + size then
                 s.data (addrOf src + (a - addrOf dst))
               else s.data a } ∧
      memoryTagAndCopy cfgNoDGranule s dst src size =
        memoryTagAndCopy cfgDefault s dst src size := by
  refine ⟨?_, rfl⟩
  have hchk : (VERIFY_ALIGNMENT_CRITICAL cfgDefault dst GRANULE_ALIGNMENT_MASK &&
      VERIFY_ALIGNMENT_CRITICAL cfgDefault size GRANULE_ALIGNMENT_MASK) = true := by
    rw [VERIFY_ALIGNMENT_CRITICAL_default, VERIFY_ALIGNMENT_CRITICAL_default,
      GRANULE_ALIGNMENT_MASK_eq, and_fifteen, and_fifteen, hd, hs]
    rfl
  simp only [memoryTagAndCopy, hchk]
  refine congrArg some (MTEMem.ext ?_ ?_)
  · funext g
    rw [show dst + size = dst + 16 * (size / 16) by omega]
    rw [memoryTagSTGPLoop_tags (size / 16) size s dst src (by omega)
      (by simp only [addrOf_eq] at hbd ⊢; omega) g]
  · funext a
    rw [show dst + size = dst + 16 * (size / 16) by omega]
    rw [memoryTagSTGPLoop_data (size / 16) size s dst src (by omega)
      (by simp only [addrOf_eq] at hbd ⊢; omega)
      (by simp only [addrOf_eq] at hbs ⊢; omega)
      (by simp only [addrOf_eq] at hdisj ⊢; omega) a]
    rw [show 16 * (size / 16) = size by omega]

/-- C4 amended witness: disjoint copy of 32 bytes to a destination with
encoded tag 9 at address 0, from source address 64. -/
theorem memoryTagAndCopy_default_copiesAndTags_witness :
    (9 <<< 56 : Nat) % 16 = 0 ∧ (32 : Nat) % 16 = 0 ∧
      addrOf (9 <<< 56) + 32 ≤ 2 ^ 56 ∧ addrOf 64 + 32 ≤ 2 ^ 56 ∧
      (addrOf (9 <<< 56) + 32 ≤ addrOf 64 ∨ addrOf 64 + 32 ≤ addrOf (9 <<< 56)) ∧
      (memoryTagAndCopy cfgDefault sampleMem (9 <<< 56) 64 32 =
          some { tags := fun g =>
                   if granuleOf (9 <<< 56) ≤ g ∧ g < granuleOf (9 <<< 56) + 32 / 16 then
                     pointerGetTag (9 <<< 56)
                   else sampleMem.tags g
                 data := fun a =>
                   if addrOf (9 <<< 56) ≤ a ∧ a < addrOf (9 <<< 56) + 32 then
                     sampleMem.data (addrOf 64 + (a - addrOf (9 <<< 56)))
                   else sampleMem.data a } ∧
        memoryTagAndCopy cfgNoDGranule sampleMem (9 <<< 56) 64 32 =
          memoryTagAndCopy cfgDefault sampleMem (9 <<< 56) 64 32) :=
  ⟨by decide, by decide, by decide, by decide, by decide,
    memoryTagAndCopy_default_copiesAndTags sampleMem (9 <<< 56) 64 32 (by decide) (by decide)
      (by decide) (by decide) (by decide)⟩

end MTELib
